import Mathlib

/-!
# UESS-Backend: user store, lookup and update handlers

A shallow embedding of `main.go`: the `User` / `UserDatabase` data model, the
`LoadDatabase` / `SaveDatabase` persistence pair, `FindUserByEmail`, and the two
HTTP handlers `AuthenticateHandler` and `UpdateUserHandler`.

Modelling conventions.

* Go strings held by the program all come out of `json.Unmarshal`, which yields
  valid UTF-8; they are Lean `String`s.
* `encoding/json` is embedded at the level of JSON values: a byte sequence is
  represented by the JSON value it is the text of (`Bytes.doc`), or is not a JSON
  text at all (`Bytes.malformed`).  `json.MarshalIndent` and `Encoder.Encode`
  render a value deterministically, so two outputs are the same bytes exactly
  when they are the same value.
* The process-wide state (`userDB`, the file `db.json`, the outcome of the
  operating system calls) is an explicit `World` that every operation threads.
* `userDB.mu` is a mutex; operations are embedded as the atomic steps it makes
  them, so `Lock` / `Unlock` do not appear.
-/

namespace UESS

/-! ## JSON values -/

/-- A JSON value. Object members keep their textual order and may repeat a key. -/
inductive Json where
  | null
  | bool (b : Bool)
  | num (lit : String)
  | str (s : String)
  | arr (elems : List Json)
  | obj (members : List (String × Json))

/-- The contents of a file or of a request body. -/
inductive Bytes where
  /-- Bytes that are not a JSON text (`json.Unmarshal` reports a syntax error). -/
  | malformed (raw : String)
  /-- The text of the JSON value `j`. -/
  | doc (j : Json)

/-- Go `error` values the program can meet. -/
inductive Error where
  /-- An error for which `os.IsNotExist` holds. -/
  | notExist
  /-- Any other operating system error. -/
  | io (msg : String)
  /-- `*json.SyntaxError`. -/
  | badJSON
  /-- `*json.UnmarshalTypeError`. -/
  | typeMismatch
deriving DecidableEq, Repr

/-! ## Data model (`main.go` lines 13-32) -/

/-- Go `type User struct`. -/
structure User where
  Email : String
  Name : String
  Surname : String
  CreatedAt : String
  Role : String
deriving DecidableEq, Repr

/-- The zero value `User{}`. -/
def User.zero : User := ⟨"", "", "", "", ""⟩

/-- Go `type UserDatabase struct`. `Users` is a Go slice: `none` is the nil slice,
`some l` a non-nil slice holding the records `l`. The mutex field carries no data. -/
structure UserDatabase where
  Users : Option (List User)
deriving DecidableEq, Repr

/-- The zero value of `UserDatabase`, which the global `userDB` holds at process start. -/
def UserDatabase.zero : UserDatabase := ⟨none⟩

/-- The records a `range userDB.Users` visits, in order. -/
def UserDatabase.records (db : UserDatabase) : List User := db.Users.getD []

/-! ## `encoding/json` on the two struct types -/

/-- Member for a field tagged `omitempty`: left out when the string is empty. -/
def omitEmpty (key val : String) : List (String × Json) :=
  if val = "" then [] else [(key, .str val)]

/-- Value `json.Marshal` gives a `User`: fields in declaration order, `email` always present,
the four `omitempty` fields only when non-empty. -/
def marshalUser (u : User) : Json :=
  .obj (("email", .str u.Email) :: (omitEmpty "name" u.Name ++ omitEmpty "surname" u.Surname
    ++ omitEmpty "createdAt" u.CreatedAt ++ omitEmpty "role" u.Role))

/-- Value `json.Marshal` gives a `UserDatabase`: the single exported field `users`; a nil slice
is `null`, a non-nil slice an array. -/
def marshalDB (db : UserDatabase) : Json :=
  .obj [("users", match db.Users with
    | none => .null
    | some l => .arr (l.map marshalUser))]

/-- Go `json.MarshalIndent(userDB, "", "  ")`. Marshalling a struct of strings cannot fail. -/
def jsonMarshalIndent (db : UserDatabase) : Except Error Bytes :=
  .ok (.doc (marshalDB db))

/-- The fields of `User` as the decoder sees them. -/
inductive UserField where
  | email | name | surname | createdAt | role
deriving DecidableEq, Repr

/-- The JSON name of a field. -/
def UserField.tag : UserField → String
  | .email => "email"
  | .name => "name"
  | .surname => "surname"
  | .createdAt => "createdAt"
  | .role => "role"

/-- All fields, in declaration order. -/
def UserField.all : List UserField := [.email, .name, .surname, .createdAt, .role]

/-- Read a field. -/
def User.get (u : User) : UserField → String
  | .email => u.Email
  | .name => u.Name
  | .surname => u.Surname
  | .createdAt => u.CreatedAt
  | .role => u.Role

/-- Write a field. -/
def User.set (u : User) : UserField → String → User
  | .email, s => { u with Email := s }
  | .name, s => { u with Name := s }
  | .surname, s => { u with Surname := s }
  | .createdAt, s => { u with CreatedAt := s }
  | .role, s => { u with Role := s }

/-- Case folding the decoder applies to a key: ASCII letters to upper case, and the
two non-ASCII letters whose simple fold is ASCII (long s, Kelvin sign). -/
def foldRune (c : Char) : Char :=
  if c = Char.ofNat 0x17F then 'S'
  else if c = Char.ofNat 0x212A then 'K'
  else c.toUpper

/-- Folded form of a key. -/
def foldName (s : String) : String := String.mk (s.toList.map foldRune)

/-- The struct field a JSON key selects: the field of exactly that name, otherwise
the first field whose name matches up to case folding. -/
def userFieldOf (key : String) : Option UserField :=
  match UserField.all.find? (fun f => f.tag = key) with
  | some f => some f
  | none => UserField.all.find? (fun f => foldName f.tag = foldName key)

/-- Whether a key selects the `Users` field of `UserDatabase`. -/
def isUsersKey (key : String) : Bool :=
  key = "users" || foldName key = foldName "users"

/-- First error wins (`decodeState.saveError`). -/
def saveError (saved new : Option Error) : Option Error :=
  match saved with
  | some e => some e
  | none => new

/-- Decode a JSON value into a string variable: a string is stored, `null` has no
effect, anything else is a type mismatch and leaves the variable alone. -/
def decodeString (target : String) : Json → String × Option Error
  | .str s => (s, none)
  | .null => (target, none)
  | _ => (target, some .typeMismatch)

/-- One object member decoded into a `User` variable. -/
def decodeUserMember (acc : User × Option Error) (kv : String × Json) : User × Option Error :=
  match userFieldOf kv.1 with
  | none => acc
  | some f =>
    let r := decodeString (acc.1.get f) kv.2
    (acc.1.set f r.1, saveError acc.2 r.2)

/-- Decode a JSON value into a `User` variable holding `target`: an object sets the
fields its members name, in order; `null` has no effect; anything else is a type
mismatch. -/
def decodeUser (target : User) : Json → User × Option Error
  | .obj members => members.foldl decodeUserMember (target, none)
  | .null => (target, none)
  | _ => (target, some .typeMismatch)

/-- Decode the elements of a JSON array into a slice whose backing array holds
`backing`: element `i` is decoded in place over `backing[i]`, or over a zero `User`
beyond the capacity. Returns the backing array afterwards. -/
def decodeElems : List Json → List User → List User × Option Error
  | [], backing => (backing, none)
  | j :: js, backing =>
    let r := decodeUser (backing.headD User.zero) j
    let rs := decodeElems js backing.tail
    (r.1 :: rs.1, saveError r.2 rs.2)

/-- A slice under decoding: `none` is nil, `some (backing, len)` is a slice of length
`len` over the backing array `backing`. -/
abbrev SliceState := Option (List User × Nat)

/-- Decode a JSON value into the `Users` slice: an array is decoded element by
element, the slice is cut to the number of elements, and an empty array gives a fresh
empty slice; `null` gives the nil slice; anything else is a type mismatch. -/
def decodeUsers (target : SliceState) : Json → SliceState × Option Error
  | .arr elems =>
    match elems with
    | [] => (some ([], 0), none)
    | _ =>
      let r := decodeElems elems (match target with | none => [] | some s => s.1)
      (some (r.1, elems.length), r.2)
  | .null => (none, none)
  | _ => (target, some .typeMismatch)

/-- One object member decoded into a `UserDatabase` variable. -/
def decodeDBMember (acc : SliceState × Option Error) (kv : String × Json) :
    SliceState × Option Error :=
  if isUsersKey kv.1 then
    let r := decodeUsers acc.1 kv.2
    (r.1, saveError acc.2 r.2)
  else acc

/-- The records of a slice. -/
def SliceState.toUsers : SliceState → Option (List User)
  | none => none
  | some s => some (s.1.take s.2)

/-- Decode a JSON value into a zero-valued `UserDatabase` variable. -/
def decodeDB : Json → UserDatabase × Option Error
  | .obj members =>
    let r := members.foldl decodeDBMember (none, none)
    (⟨SliceState.toUsers r.1⟩, r.2)
  | .null => (UserDatabase.zero, none)
  | _ => (UserDatabase.zero, some .typeMismatch)

/-- Go `json.Unmarshal(body, &user)` with `var user User` freshly declared: the syntax is
checked first, then the value is decoded; the variable's final value is returned with
the error. -/
def jsonUnmarshalUser : Bytes → User × Option Error
  | .malformed _ => (User.zero, some .badJSON)
  | .doc j => decodeUser User.zero j

/-- Go `json.Unmarshal(file, &userDB)` with `userDB` still at its zero value, which is how
`main` runs it. -/
def jsonUnmarshalDB : Bytes → UserDatabase × Option Error
  | .malformed _ => (UserDatabase.zero, some .badJSON)
  | .doc j => decodeDB j

/-! ## Process state and operating system calls -/

/-- How a failing `os.WriteFile` ends. The call opens the file with
`O_WRONLY|O_CREATE|O_TRUNC`, writes, and closes; it returns the first error met. -/
inductive WriteFault where
  /-- The open fails with `err`: the file is not touched. -/
  | refused (err : Error)
  /-- The open succeeds, so the file exists and has been truncated, and the write or the
  close then fails with `err`: the file is left holding `left` (nothing, or whatever part
  of the data reached it). -/
  | torn (err : Error) (left : Bytes)

/-- The error a failing `os.WriteFile` returns. -/
def WriteFault.err : WriteFault → Error
  | .refused err => err
  | .torn err _ => err

/-- The file a failing `os.WriteFile` leaves behind, given the file before the call. -/
def WriteFault.leaves : WriteFault → Option Bytes → Option Bytes
  | .refused _, old => old
  | .torn _ left, _ => some left

/-- The file at `dbFilePath` and how the operating system answers for it. -/
structure Disk where
  /-- Contents of `db.json`; `none` when the file does not exist. -/
  file : Option Bytes
  /-- When `some msg`, `os.ReadFile` fails with an error other than not-exist. -/
  readFault : Option String
  /-- When `some fault`, `os.WriteFile` fails the way `fault` describes. -/
  writeFault : Option WriteFault
  /-- The `data` argument of every `os.WriteFile` call so far, oldest first. -/
  writeLog : List Bytes

/-- Everything the operations read or write: the global `userDB` and the disk. -/
structure World where
  /-- The global `userDB`. -/
  userDB : UserDatabase
  /-- The backing file. -/
  disk : Disk

/-- Go `os.ReadFile(dbFilePath)`. -/
def osReadFile (d : Disk) : Except Error Bytes :=
  match d.readFault with
  | some msg => .error (.io msg)
  | none =>
    match d.file with
    | none => .error .notExist
    | some data => .ok data

/-- Go `os.WriteFile(dbFilePath, data, 0644)`. -/
def osWriteFile (d : Disk) (data : Bytes) : Disk × Option Error :=
  match d.writeFault with
  | some (.refused err) => ({ d with writeLog := d.writeLog ++ [data] }, some err)
  | some (.torn err left) =>
    ({ d with file := some left, writeLog := d.writeLog ++ [data] }, some err)
  | none => ({ d with file := some data, writeLog := d.writeLog ++ [data] }, none)

/-- Go `os.IsNotExist(err)`. -/
def osIsNotExist : Error → Bool
  | .notExist => true
  | _ => false

/-! ## Persistence (`main.go` lines 34-56) -/

/-- Go `SaveDatabase`: marshal `userDB` with two-space indentation and overwrite the file. -/
def SaveDatabase (w : World) : World × Option Error :=
  match jsonMarshalIndent w.userDB with
  | .error err => (w, some err)
  | .ok data =>
    let r := osWriteFile w.disk data
    ({ w with disk := r.1 }, r.2)

/-- Go `LoadDatabase`, as `main` runs it: once, at process start, when the global
`userDB` still holds its zero value. Takes the disk the process finds and returns the
world after the call with the returned error. -/
def LoadDatabase (d : Disk) : World × Option Error :=
  let w : World := { userDB := UserDatabase.zero, disk := d }
  match osReadFile w.disk with
  | .error err =>
    if osIsNotExist err then
      SaveDatabase { w with userDB := ⟨some []⟩ }
    else
      (w, some err)
  | .ok file =>
    let r := jsonUnmarshalDB file
    ({ w with userDB := r.1 }, r.2)

/-! ## Lookup (`main.go` lines 58-69) -/

/-- The `for _, user := range userDB.Users` loop of `FindUserByEmail`. -/
def findLoop (email : String) : List User → User × Bool
  | [] => (User.zero, false)
  | user :: rest => if user.Email = email then (user, true) else findLoop email rest

/-- Go `FindUserByEmail`. -/
def FindUserByEmail (w : World) (email : String) : User × Bool :=
  findLoop email w.userDB.records

/-! ## HTTP -/

/-- An incoming request: the method, and what `io.ReadAll(r.Body)` returns. -/
structure Request where
  method : String
  body : Except String Bytes

/-- A response body. -/
inductive Body where
  /-- Plain text, as written by `http.Error`. -/
  | text (s : String)
  /-- The encoding of a JSON value, as written by `json.NewEncoder(w).Encode`. -/
  | json (j : Json)

/-- What a handler wrote to the `http.ResponseWriter`. -/
structure Response where
  status : Nat
  contentType : String
  body : Body

/-- Go `http.Error(w, msg, code)`. -/
def httpError (msg : String) (code : Nat) : Response :=
  { status := code, contentType := "text/plain; charset=utf-8", body := .text (msg ++ "\n") }

/-- A JSON response: the `Content-Type` header, `WriteHeader(code)`, then the encoded
map, whose keys `encoding/json` writes in sorted order. -/
def jsonResponse (code : Nat) (members : List (String × Json)) : Response :=
  { status := code, contentType := "application/json", body := .json (.obj members) }

/-! ## `AuthenticateHandler` (`main.go` lines 71-111) -/

/-- Go `AuthenticateHandler`. -/
def AuthenticateHandler (w : World) (r : Request) : World × Response :=
  if r.method ≠ "POST" then
    (w, httpError "Method not allowed" 405)
  else
    match r.body with
    | .error _ => (w, httpError "Error reading request body" 400)
    | .ok body =>
      let d := jsonUnmarshalUser body
      match d.2 with
      | some _ => (w, httpError "Error parsing JSON" 400)
      | none =>
        let user := d.1
        let f := FindUserByEmail w user.Email
        if f.2 then
          (w, jsonResponse 200
            [("exists", .bool true), ("status", .str "success"), ("user", marshalUser f.1)])
        else
          (w, jsonResponse 200 [("exists", .bool false), ("status", .str "success")])

/-! ## `UpdateUserHandler` (`main.go` lines 113-178) -/

/-- The three guarded assignments of the update loop body, in source order. -/
def applyPatch (user existing : User) : User :=
  let e1 := if user.Role ≠ "" then { existing with Role := user.Role } else existing
  let e2 := if user.Name ≠ "" then { e1 with Name := user.Name } else e1
  if user.Surname ≠ "" then { e2 with Surname := user.Surname } else e2

/-- The `for i, existingUser := range userDB.Users` loop of `UpdateUserHandler`:
the slice afterwards and `userFound`. -/
def updateLoop (user : User) : List User → List User × Bool
  | [] => ([], false)
  | existingUser :: rest =>
    if existingUser.Email = user.Email then
      (applyPatch user existingUser :: rest, true)
    else
      let r := updateLoop user rest
      (existingUser :: r.1, r.2)

/-- The update loop on the slice `userDB.Users`; ranging over a nil slice does nothing. -/
def updateUsers (user : User) (db : UserDatabase) : UserDatabase × Bool :=
  match db.Users with
  | none => (db, false)
  | some l =>
    let r := updateLoop user l
    (⟨some r.1⟩, r.2)

/-- Go `UpdateUserHandler`. -/
def UpdateUserHandler (w : World) (r : Request) : World × Response :=
  if r.method ≠ "PUT" then
    (w, httpError "Method not allowed" 405)
  else
    match r.body with
    | .error _ => (w, httpError "Error reading request body" 400)
    | .ok body =>
      let d := jsonUnmarshalUser body
      match d.2 with
      | some _ => (w, httpError "Error parsing JSON" 400)
      | none =>
        let user := d.1
        let u := updateUsers user w.userDB
        let w1 := { w with userDB := u.1 }
        if !u.2 then
          (w1, jsonResponse 404
            [("message", .str "User not found. Only authorized users can be updated."),
             ("status", .str "error")])
        else
          let s := SaveDatabase w1
          match s.2 with
          | some _ => (s.1, httpError "Error saving database" 500)
          | none => (s.1, jsonResponse 200 [("status", .str "success")])

/-! ## Basic facts about the loops -/

theorem records_of_users {db : UserDatabase} {l : List User} (h : db.Users = some l) :
    db.records = l := by
  simp [UserDatabase.records, h]

theorem users_of_records_cons {db : UserDatabase} {pre post : List User} {u : User}
    (h : db.records = pre ++ u :: post) : db.Users = some (pre ++ u :: post) := by
  cases db with
  | mk users =>
    cases users with
    | none => simp [UserDatabase.records] at h
    | some l => simpa [UserDatabase.records] using h

theorem exists_first_match (email : String) (l : List User)
    (h : ∃ x ∈ l, x.Email = email) :
    ∃ pre u post, l = pre ++ u :: post ∧ (∀ x ∈ pre, x.Email ≠ email) ∧ u.Email = email := by
  induction l with
  | nil => simp at h
  | cons a rest ih =>
    by_cases ha : a.Email = email
    · exact ⟨[], a, rest, rfl, by simp, ha⟩
    · have h' : ∃ x ∈ rest, x.Email = email := by
        obtain ⟨x, hx, hxe⟩ := h
        rcases List.mem_cons.1 hx with rfl | hx'
        · exact absurd hxe ha
        · exact ⟨x, hx', hxe⟩
      obtain ⟨pre, u, post, hl, hpre, hu⟩ := ih h'
      refine ⟨a :: pre, u, post, by simp [hl], ?_, hu⟩
      intro x hx
      rcases List.mem_cons.1 hx with rfl | hx'
      · exact ha
      · exact hpre x hx'

theorem findLoop_skip (email : String) (pre rest : List User)
    (hpre : ∀ x ∈ pre, x.Email ≠ email) :
    findLoop email (pre ++ rest) = findLoop email rest := by
  induction pre with
  | nil => rfl
  | cons a pre ih =>
    have ha : a.Email ≠ email := hpre a (by simp)
    have ih' := ih (fun x hx => hpre x (by simp [hx]))
    simp [findLoop, ha, ih']

theorem findLoop_absent (email : String) (l : List User)
    (h : ∀ x ∈ l, x.Email ≠ email) : findLoop email l = (User.zero, false) := by
  have := findLoop_skip email l [] h
  simpa [findLoop] using this

theorem findLoop_found (email : String) (l : List User) (u : User)
    (h : findLoop email l = (u, true)) : u.Email = email ∧ u ∈ l := by
  induction l with
  | nil => simp [findLoop] at h
  | cons a rest ih =>
    by_cases ha : a.Email = email
    · simp [findLoop, ha] at h
      subst h
      exact ⟨ha, by simp⟩
    · simp [findLoop, ha] at h
      obtain ⟨h1, h2⟩ := ih h
      exact ⟨h1, by simp [h2]⟩

theorem updateLoop_skip (user : User) (pre rest : List User)
    (hpre : ∀ x ∈ pre, x.Email ≠ user.Email) :
    updateLoop user (pre ++ rest) = (pre ++ (updateLoop user rest).1, (updateLoop user rest).2) := by
  induction pre with
  | nil => rfl
  | cons a pre ih =>
    have ha : a.Email ≠ user.Email := hpre a (by simp)
    have ih' := ih (fun x hx => hpre x (by simp [hx]))
    simp [updateLoop, ha, ih']

theorem updateLoop_absent (user : User) (l : List User)
    (h : ∀ x ∈ l, x.Email ≠ user.Email) : updateLoop user l = (l, false) := by
  have := updateLoop_skip user l [] h
  simpa [updateLoop] using this

theorem updateLoop_first (user : User) (pre post : List User) (u : User)
    (hpre : ∀ x ∈ pre, x.Email ≠ user.Email) (hu : u.Email = user.Email) :
    updateLoop user (pre ++ u :: post) = (pre ++ applyPatch user u :: post, true) := by
  rw [updateLoop_skip user pre (u :: post) hpre]
  simp [updateLoop, hu]

theorem updateUsers_absent (user : User) (db : UserDatabase)
    (h : ∀ x ∈ db.records, x.Email ≠ user.Email) : updateUsers user db = (db, false) := by
  cases db with
  | mk users =>
    cases users with
    | none => rfl
    | some l =>
      have h' : ∀ x ∈ l, x.Email ≠ user.Email := by simpa [UserDatabase.records] using h
      simp [updateUsers, updateLoop_absent user l h']

theorem updateUsers_first (user : User) (db : UserDatabase) (pre post : List User) (u : User)
    (hrec : db.records = pre ++ u :: post)
    (hpre : ∀ x ∈ pre, x.Email ≠ user.Email) (hu : u.Email = user.Email) :
    updateUsers user db = (⟨some (pre ++ applyPatch user u :: post)⟩, true) := by
  have hU := users_of_records_cons hrec
  simp [updateUsers, hU, updateLoop_first user pre post u hpre hu]

theorem applyPatch_Email (user u : User) : (applyPatch user u).Email = u.Email := by
  unfold applyPatch; split_ifs <;> rfl

theorem applyPatch_CreatedAt (user u : User) : (applyPatch user u).CreatedAt = u.CreatedAt := by
  unfold applyPatch; split_ifs <;> rfl

theorem applyPatch_Name (user u : User) :
    (applyPatch user u).Name = if user.Name = "" then u.Name else user.Name := by
  unfold applyPatch; split_ifs <;> simp_all

theorem applyPatch_Surname (user u : User) :
    (applyPatch user u).Surname = if user.Surname = "" then u.Surname else user.Surname := by
  unfold applyPatch; split_ifs <;> simp_all

theorem applyPatch_Role (user u : User) :
    (applyPatch user u).Role = if user.Role = "" then u.Role else user.Role := by
  unfold applyPatch; split_ifs <;> simp_all

/-- What `UpdateUserHandler` does once the method is PUT and the body has decoded to `user`. -/
theorem UpdateUserHandler_decoded (w : World) (r : Request) (body : Bytes) (user : User)
    (hm : r.method = "PUT") (hb : r.body = .ok body)
    (hd : jsonUnmarshalUser body = (user, none)) :
    UpdateUserHandler w r =
      if !(updateUsers user w.userDB).2 then
        ({ w with userDB := (updateUsers user w.userDB).1 }, jsonResponse 404
          [("message", .str "User not found. Only authorized users can be updated."),
           ("status", .str "error")])
      else
        match (SaveDatabase { w with userDB := (updateUsers user w.userDB).1 }).2 with
        | some _ => ((SaveDatabase { w with userDB := (updateUsers user w.userDB).1 }).1,
            httpError "Error saving database" 500)
        | none => ((SaveDatabase { w with userDB := (updateUsers user w.userDB).1 }).1,
            jsonResponse 200 [("status", .str "success")]) := by
  simp [UpdateUserHandler, hm, hb, hd]

theorem SaveDatabase_userDB (w : World) : (SaveDatabase w).1.userDB = w.userDB := by
  simp [SaveDatabase, jsonMarshalIndent]

/-! ## Marshal then unmarshal -/

theorem userFieldOf_email : userFieldOf "email" = some .email := by decide
theorem userFieldOf_name : userFieldOf "name" = some .name := by decide
theorem userFieldOf_surname : userFieldOf "surname" = some .surname := by decide
theorem userFieldOf_createdAt : userFieldOf "createdAt" = some .createdAt := by decide
theorem userFieldOf_role : userFieldOf "role" = some .role := by decide
theorem isUsersKey_users : isUsersKey "users" = true := by decide

/-- Decoding the marshalled form of a record into a zero `User` gives the record back. -/
theorem decodeUser_marshalUser (u : User) :
    decodeUser User.zero (marshalUser u) = (u, none) := by
  obtain ⟨e, n, s, c, r⟩ := u
  by_cases hn : n = "" <;> by_cases hs : s = "" <;> by_cases hc : c = "" <;>
    by_cases hr : r = "" <;>
    simp [marshalUser, omitEmpty, decodeUser, decodeUserMember, decodeString, saveError,
      userFieldOf_email, userFieldOf_name, userFieldOf_surname, userFieldOf_createdAt,
      userFieldOf_role, User.get, User.set, User.zero, hn, hs, hc, hr]

/-- Decoding a marshalled array into a fresh slice gives the records back. -/
theorem decodeElems_marshal (l : List User) :
    decodeElems (l.map marshalUser) [] = (l, none) := by
  induction l with
  | nil => rfl
  | cons a rest ih =>
    simp [decodeElems, decodeUser_marshalUser, ih, saveError]

/-- Decoding what `json.Marshal` makes of a database gives the database back. -/
theorem decodeDB_marshalDB (db : UserDatabase) : decodeDB (marshalDB db) = (db, none) := by
  obtain ⟨users⟩ := db
  cases users with
  | none =>
    simp [marshalDB, decodeDB, decodeDBMember, isUsersKey_users, decodeUsers, saveError,
      SliceState.toUsers]
  | some l =>
    cases l with
    | nil =>
      simp [marshalDB, decodeDB, decodeDBMember, isUsersKey_users, decodeUsers, saveError,
        SliceState.toUsers]
    | cons a rest =>
      have h := decodeElems_marshal (a :: rest)
      simp only [List.map_cons] at h
      simp [marshalDB, decodeDB, decodeDBMember, isUsersKey_users, decodeUsers, saveError,
        SliceState.toUsers, h]

theorem jsonUnmarshalDB_marshal (db : UserDatabase) :
    jsonUnmarshalDB (.doc (marshalDB db)) = (db, none) := by
  simp [jsonUnmarshalDB, decodeDB_marshalDB]

/-- A process started on a readable disk holding the marshalled form of `db` loads
exactly `db`, without error and without writing. -/
theorem LoadDatabase_of_saved (d : Disk) (db : UserDatabase)
    (hfile : d.file = some (.doc (marshalDB db))) (hread : d.readFault = none) :
    LoadDatabase d = ({ userDB := db, disk := d }, none) := by
  simp [LoadDatabase, osReadFile, hfile, hread, jsonUnmarshalDB_marshal]

/-- A successful `SaveDatabase` leaves the marshalled `userDB` in the file. -/
theorem SaveDatabase_ok (w : World) (hw : w.disk.writeFault = none) :
    SaveDatabase w =
      ({ w with disk := { w.disk with file := some (.doc (marshalDB w.userDB)),
                                      writeLog := w.disk.writeLog ++ [.doc (marshalDB w.userDB)] } },
       none) := by
  simp [SaveDatabase, jsonMarshalIndent, osWriteFile, hw]

/-- A failing `SaveDatabase` returns the write error and leaves the file as the failed
write left it. -/
theorem SaveDatabase_fail (w : World) (fault : WriteFault)
    (hw : w.disk.writeFault = some fault) :
    SaveDatabase w =
      ({ w with disk := { w.disk with
                            file := fault.leaves w.disk.file,
                            writeLog := w.disk.writeLog ++ [.doc (marshalDB w.userDB)] } },
       some fault.err) := by
  cases fault <;>
    simp [SaveDatabase, jsonMarshalIndent, osWriteFile, hw, WriteFault.leaves, WriteFault.err]

/-- What `AuthenticateHandler` does once the method is POST and the body has decoded to `user`. -/
theorem AuthenticateHandler_decoded (w : World) (r : Request) (body : Bytes) (user : User)
    (hm : r.method = "POST") (hb : r.body = .ok body)
    (hd : jsonUnmarshalUser body = (user, none)) :
    AuthenticateHandler w r =
      if (FindUserByEmail w user.Email).2 then
        (w, jsonResponse 200 [("exists", .bool true), ("status", .str "success"),
          ("user", marshalUser (FindUserByEmail w user.Email).1)])
      else
        (w, jsonResponse 200 [("exists", .bool false), ("status", .str "success")]) := by
  simp [AuthenticateHandler, hm, hb, hd]

/-- The `userDB` that `UpdateUserHandler` leaves when the patch matches, whatever the
save does. -/
theorem UpdateUserHandler_userDB_matched (w : World) (r : Request) (body : Bytes) (patch : User)
    (hm : r.method = "PUT") (hb : r.body = .ok body)
    (hd : jsonUnmarshalUser body = (patch, none))
    (pre post : List User) (u : User) (hrec : w.userDB.records = pre ++ u :: post)
    (hpre : ∀ x ∈ pre, x.Email ≠ patch.Email) (hu : u.Email = patch.Email) :
    (UpdateUserHandler w r).1.userDB = ⟨some (pre ++ applyPatch patch u :: post)⟩ := by
  rw [UpdateUserHandler_decoded w r body patch hm hb hd,
    updateUsers_first patch w.userDB pre post u hrec hpre hu]
  simp only [Bool.not_true, Bool.false_eq_true, if_false]
  split <;> simp [SaveDatabase_userDB]

/-- The `userDB` that `UpdateUserHandler` leaves when no record matches. -/
theorem UpdateUserHandler_userDB_absent (w : World) (r : Request) (body : Bytes) (patch : User)
    (hm : r.method = "PUT") (hb : r.body = .ok body)
    (hd : jsonUnmarshalUser body = (patch, none))
    (habsent : ∀ x ∈ w.userDB.records, x.Email ≠ patch.Email) :
    (UpdateUserHandler w r).1.userDB = w.userDB := by
  rw [UpdateUserHandler_decoded w r body patch hm hb hd,
    updateUsers_absent patch w.userDB habsent]
  simp

/-- The whole outcome of `UpdateUserHandler` when the patch matches and the write succeeds. -/
theorem UpdateUserHandler_matched_saved (w : World) (r : Request) (body : Bytes) (patch : User)
    (hm : r.method = "PUT") (hb : r.body = .ok body)
    (hd : jsonUnmarshalUser body = (patch, none))
    (pre post : List User) (u : User) (hrec : w.userDB.records = pre ++ u :: post)
    (hpre : ∀ x ∈ pre, x.Email ≠ patch.Email) (hu : u.Email = patch.Email)
    (hsave : w.disk.writeFault = none) :
    UpdateUserHandler w r =
      ({ userDB := ⟨some (pre ++ applyPatch patch u :: post)⟩,
         disk := { w.disk with
           file := some (.doc (marshalDB ⟨some (pre ++ applyPatch patch u :: post)⟩)),
           writeLog := w.disk.writeLog ++
             [.doc (marshalDB ⟨some (pre ++ applyPatch patch u :: post)⟩)] } },
       jsonResponse 200 [("status", .str "success")]) := by
  rw [UpdateUserHandler_decoded w r body patch hm hb hd,
    updateUsers_first patch w.userDB pre post u hrec hpre hu]
  simp only [Bool.not_true, Bool.false_eq_true, if_false]
  rw [SaveDatabase_ok { userDB := ⟨some (pre ++ applyPatch patch u :: post)⟩, disk := w.disk }
    hsave]

/-- The whole outcome of `UpdateUserHandler` when the patch matches and the write fails. -/
theorem UpdateUserHandler_matched_unsaved (w : World) (r : Request) (body : Bytes)
    (patch : User) (hm : r.method = "PUT") (hb : r.body = .ok body)
    (hd : jsonUnmarshalUser body = (patch, none))
    (pre post : List User) (u : User) (hrec : w.userDB.records = pre ++ u :: post)
    (hpre : ∀ x ∈ pre, x.Email ≠ patch.Email) (hu : u.Email = patch.Email)
    (fault : WriteFault) (hsave : w.disk.writeFault = some fault) :
    UpdateUserHandler w r =
      ({ userDB := ⟨some (pre ++ applyPatch patch u :: post)⟩,
         disk := { w.disk with
           file := fault.leaves w.disk.file,
           writeLog := w.disk.writeLog ++
             [.doc (marshalDB ⟨some (pre ++ applyPatch patch u :: post)⟩)] } },
       httpError "Error saving database" 500) := by
  rw [UpdateUserHandler_decoded w r body patch hm hb hd,
    updateUsers_first patch w.userDB pre post u hrec hpre hu]
  simp only [Bool.not_true, Bool.false_eq_true, if_false]
  rw [SaveDatabase_fail { userDB := ⟨some (pre ++ applyPatch patch u :: post)⟩, disk := w.disk }
    fault hsave]

/-- The outcome of `LoadDatabase` on a readable disk whose file exists. -/
theorem LoadDatabase_present (d : Disk) (data : Bytes) (hfile : d.file = some data)
    (hread : d.readFault = none) :
    LoadDatabase d =
      ({ userDB := (jsonUnmarshalDB data).1, disk := d }, (jsonUnmarshalDB data).2) := by
  simp [LoadDatabase, osReadFile, hfile, hread]

/-- The outcome of `LoadDatabase` when `os.ReadFile` fails with another error than
not-exist. -/
theorem LoadDatabase_unreadable (d : Disk) (msg : String) (hread : d.readFault = some msg) :
    LoadDatabase d = ({ userDB := UserDatabase.zero, disk := d }, some (.io msg)) := by
  simp [LoadDatabase, osReadFile, hread, osIsNotExist]

/-! ## Two updates for different emails -/

theorem updateLoop_emails (user : User) (l : List User) :
    (updateLoop user l).1.map (fun x => x.Email) = l.map (fun x => x.Email) := by
  induction l with
  | nil => rfl
  | cons a rest ih =>
    by_cases ha : a.Email = user.Email
    · simp [updateLoop, ha, applyPatch_Email]
    · simp [updateLoop, ha, ih]

theorem updateLoop_present_after (user other : User) (l : List User)
    (h : ∃ x ∈ l, x.Email = other.Email) :
    ∃ x ∈ (updateLoop user l).1, x.Email = other.Email := by
  have hmem : other.Email ∈ l.map (fun x => x.Email) := by
    obtain ⟨x, hx, hxe⟩ := h
    exact List.mem_map.2 ⟨x, hx, hxe⟩
  rw [← updateLoop_emails user l] at hmem
  obtain ⟨x, hx, hxe⟩ := List.mem_map.1 hmem
  exact ⟨x, hx, hxe⟩

theorem updateLoop_found (user : User) (l : List User)
    (h : ∃ x ∈ l, x.Email = user.Email) : (updateLoop user l).2 = true := by
  obtain ⟨pre, u, post, hl, hpre, hu⟩ := exists_first_match user.Email l h
  rw [hl, updateLoop_first user pre post u hpre hu]

theorem updateLoop_comm (p q : User) (hne : p.Email ≠ q.Email) (l : List User) :
    (updateLoop q (updateLoop p l).1).1 = (updateLoop p (updateLoop q l).1).1 := by
  induction l with
  | nil => rfl
  | cons a rest ih =>
    by_cases hap : a.Email = p.Email
    · have haq : a.Email ≠ q.Email := fun h => hne (hap.symm.trans h)
      simp [updateLoop, hap, haq, applyPatch_Email, hne]
    · by_cases haq : a.Email = q.Email
      · have hqp : ¬ q.Email = p.Email := fun h => hne h.symm
        simp [updateLoop, hap, haq, applyPatch_Email, hqp]
      · simp [updateLoop, hap, haq, ih]

theorem find_updateLoop_other (user : User) (email : String) (hne : email ≠ user.Email)
    (l : List User) :
    (updateLoop user l).1.find? (fun x => x.Email = email) =
      l.find? (fun x => x.Email = email) := by
  induction l with
  | nil => rfl
  | cons a rest ih =>
    by_cases ha : a.Email = user.Email
    · have hae : ¬ a.Email = email := fun h => hne (h.symm.trans ha)
      have hue : ¬ user.Email = email := fun h => hne h.symm
      simp [updateLoop, ha, applyPatch_Email, hue]
    · have hstep : updateLoop user (a :: rest) =
          (a :: (updateLoop user rest).1, (updateLoop user rest).2) := by
        simp [updateLoop, ha]
      rw [hstep]
      by_cases hae : a.Email = email
      · simp [hae]
      · simp [hae, ih]

theorem find_updateLoop_self (user : User) (pre post : List User) (u : User)
    (hpre : ∀ x ∈ pre, x.Email ≠ user.Email) (hu : u.Email = user.Email) :
    (updateLoop user (pre ++ u :: post)).1.find? (fun x => x.Email = user.Email) =
      some (applyPatch user u) := by
  rw [updateLoop_first user pre post u hpre hu]
  rw [List.find?_append]
  have hnone : pre.find? (fun x => x.Email = user.Email) = none := by
    rw [List.find?_eq_none]
    intro x hx
    simpa using hpre x hx
  simp [hnone, applyPatch_Email, hu]

/-- The whole outcome of `UpdateUserHandler` when the patch email is stored and the write
succeeds, in terms of the update loop. -/
theorem UpdateUserHandler_present_saved (w : World) (r : Request) (body : Bytes) (patch : User)
    (l : List User) (hm : r.method = "PUT") (hb : r.body = .ok body)
    (hd : jsonUnmarshalUser body = (patch, none)) (hl : w.userDB.Users = some l)
    (hpresent : ∃ x ∈ l, x.Email = patch.Email) (hsave : w.disk.writeFault = none) :
    UpdateUserHandler w r =
      ({ userDB := ⟨some (updateLoop patch l).1⟩,
         disk := { w.disk with
           file := some (.doc (marshalDB ⟨some (updateLoop patch l).1⟩)),
           writeLog := w.disk.writeLog ++ [.doc (marshalDB ⟨some (updateLoop patch l).1⟩)] } },
       jsonResponse 200 [("status", .str "success")]) := by
  have hrec : w.userDB.records = l := records_of_users hl
  obtain ⟨pre, u, post, hdec, hpre, hu⟩ := exists_first_match patch.Email l hpresent
  rw [UpdateUserHandler_matched_saved w r body patch hm hb hd pre post u (hrec.trans hdec)
    hpre hu hsave, hdec, updateLoop_first patch pre post u hpre hu]

/-! ## Sample data -/

/-- A stored record with a role only. -/
def sampleAlice : User := ⟨"a@x.com", "", "", "2024-01-01", "user"⟩

/-- A stored record with a name and a surname. -/
def sampleBob : User := ⟨"b@x.com", "Bob", "Stone", "", ""⟩

/-- A later record repeating the email of `sampleBob`. -/
def sampleBobAgain : User := ⟨"b@x.com", "Robert", "", "", "guest"⟩

/-- A three-record collection. -/
def sampleDB : UserDatabase := ⟨some [sampleAlice, sampleBob, sampleBobAgain]⟩

/-- A healthy disk holding the saved form of `sampleDB`. -/
def sampleDisk : Disk :=
  { file := some (.doc (marshalDB sampleDB)), readFault := none, writeFault := none,
    writeLog := [] }

/-- A running process over `sampleDB`. -/
def sampleWorld : World := { userDB := sampleDB, disk := sampleDisk }

/-- The same process on a disk that refuses to open the file for writing. -/
def sampleWorldReadOnly : World :=
  { userDB := sampleDB,
    disk := { sampleDisk with writeFault := some (.refused (.io "read-only file system")) } }

/-- The same process on a full disk: the file is opened and truncated, and no byte of the
new data can be written. -/
def sampleWorldDiskFull : World :=
  { userDB := sampleDB,
    disk := { sampleDisk with
      writeFault := some (.torn (.io "no space left on device") (.malformed "")) } }

/-- A disk with no file on it. -/
def sampleEmptyDisk : Disk :=
  { file := none, readFault := none, writeFault := none, writeLog := [] }

/-- A hand-written collection file: an extra top-level member, keys in other letter
case, a numeric member the schema does not know and a `null` name. -/
def sampleHandWritten : Bytes :=
  .doc (.obj [("version", .num "1"),
    ("Users", .arr [.obj [("EMAIL", .str "a@x.com"), ("age", .num "3"), ("name", .null),
      ("role", .str "user")]])])

/-- A request carrying the JSON object with the given members. -/
def sampleRequest (method : String) (members : List (String × Json)) : Request :=
  { method := method, body := .ok (.doc (.obj members)) }

/-! ## The claims -/

/-- C4: `FindUserByEmail` returns `(u, true)` for the first record, in collection order,
whose email is exactly the argument, whenever some record has that email; it returns
the zero `User` and `false` when none has; and a record it returns with `true` always
carries the requested email and is in the collection. -/
theorem FindUserByEmail_first_exact (w : World) (email : String) :
    (∀ pre u post, w.userDB.records = pre ++ u :: post →
        (∀ x ∈ pre, x.Email ≠ email) → u.Email = email →
        FindUserByEmail w email = (u, true)) ∧
    ((∃ x ∈ w.userDB.records, x.Email = email) →
        ∃ pre u post, w.userDB.records = pre ++ u :: post ∧
          (∀ x ∈ pre, x.Email ≠ email) ∧ u.Email = email ∧
          FindUserByEmail w email = (u, true)) ∧
    ((∀ x ∈ w.userDB.records, x.Email ≠ email) →
        FindUserByEmail w email = (User.zero, false)) ∧
    (∀ u, FindUserByEmail w email = (u, true) → u.Email = email ∧ u ∈ w.userDB.records) := by
  have key : ∀ pre u post, w.userDB.records = pre ++ u :: post →
      (∀ x ∈ pre, x.Email ≠ email) → u.Email = email →
      FindUserByEmail w email = (u, true) := by
    intro pre u post hrec hpre hu
    unfold FindUserByEmail
    rw [hrec, findLoop_skip email pre (u :: post) hpre]
    simp [findLoop, hu]
  refine ⟨key, ?_, ?_, ?_⟩
  · intro h
    obtain ⟨pre, u, post, hrec, hpre, hu⟩ := exists_first_match email _ h
    exact ⟨pre, u, post, hrec, hpre, hu, key pre u post hrec hpre hu⟩
  · intro h
    exact findLoop_absent email _ h
  · intro u h
    exact findLoop_found email _ u h

/-- C4 on `sampleWorld`: of the two records with email `b@x.com` the first is returned,
a differently-cased email finds nothing. -/
theorem FindUserByEmail_first_exact_witness :
    FindUserByEmail sampleWorld "b@x.com" = (sampleBob, true) ∧
    FindUserByEmail sampleWorld "B@x.com" = (User.zero, false) :=
  ⟨(FindUserByEmail_first_exact sampleWorld "b@x.com").1 [sampleAlice] sampleBob [sampleBobAgain]
      rfl (by decide) rfl,
   (FindUserByEmail_first_exact sampleWorld "B@x.com").2.2.1 (by decide)⟩

/-- C5: for a POST request whose body decodes to a `User` with email `e`,
`AuthenticateHandler` leaves the world as it was and answers 200 with a JSON body.
If `e` is stored, the body is `exists:true`, `status:"success"` and `user` bound to the
marshalled first record with email `e`, which decodes back to exactly that record.
If `e` is not stored, the body is `exists:false`, `status:"success"` and has no other
member. -/
theorem AuthenticateHandler_exists_iff_stored (w : World) (r : Request) (body : Bytes)
    (user : User) (hm : r.method = "POST") (hb : r.body = .ok body)
    (hd : jsonUnmarshalUser body = (user, none)) :
    (AuthenticateHandler w r).1 = w ∧
    (AuthenticateHandler w r).2.status = 200 ∧
    (AuthenticateHandler w r).2.contentType = "application/json" ∧
    ((∃ x ∈ w.userDB.records, x.Email = user.Email) →
        ∃ pre u post, w.userDB.records = pre ++ u :: post ∧
          (∀ x ∈ pre, x.Email ≠ user.Email) ∧ u.Email = user.Email ∧
          (AuthenticateHandler w r).2.body =
            .json (.obj [("exists", .bool true), ("status", .str "success"),
              ("user", marshalUser u)]) ∧
          decodeUser User.zero (marshalUser u) = (u, none)) ∧
    ((∀ x ∈ w.userDB.records, x.Email ≠ user.Email) →
        (AuthenticateHandler w r).2.body =
          .json (.obj [("exists", .bool false), ("status", .str "success")])) := by
  have hA := AuthenticateHandler_decoded w r body user hm hb hd
  have hF := FindUserByEmail_first_exact w user.Email
  refine ⟨?_, ?_, ?_, ?_, ?_⟩
  · rw [hA]; split_ifs <;> rfl
  · rw [hA]; split_ifs <;> rfl
  · rw [hA]; split_ifs <;> rfl
  · intro h
    obtain ⟨pre, u, post, hrec, hpre, hu, hfind⟩ := hF.2.1 h
    refine ⟨pre, u, post, hrec, hpre, hu, ?_, decodeUser_marshalUser u⟩
    rw [hA, hfind]
    simp [jsonResponse]
  · intro h
    rw [hA, hF.2.2.1 h]
    simp [jsonResponse]

/-- C5 on `sampleWorld`: a stored email is answered with the stored record, an unknown
one with `exists:false` and nothing else. -/
theorem AuthenticateHandler_exists_iff_stored_witness :
    (AuthenticateHandler sampleWorld (sampleRequest "POST" [("email", .str "a@x.com")])).2.status
      = 200 ∧
    (AuthenticateHandler sampleWorld (sampleRequest "POST" [("email", .str "z@x.com")])).2.body
      = .json (.obj [("exists", .bool false), ("status", .str "success")]) :=
  ⟨(AuthenticateHandler_exists_iff_stored sampleWorld
      (sampleRequest "POST" [("email", .str "a@x.com")]) _ ⟨"a@x.com", "", "", "", ""⟩
      rfl rfl (by decide)).2.1,
   (AuthenticateHandler_exists_iff_stored sampleWorld
      (sampleRequest "POST" [("email", .str "z@x.com")]) _ ⟨"z@x.com", "", "", "", ""⟩
      rfl rfl (by decide)).2.2.2.2 (by decide)⟩

/-- C3: for a PUT request whose body decodes to a patch whose email no stored record
has, `UpdateUserHandler` answers 404 with the JSON object
`{status:"error", message:"User not found. Only authorized users can be updated."}`,
leaves `userDB` exactly as it was, and does not call `os.WriteFile`: the write log and
the file are unchanged. -/
theorem UpdateUserHandler_not_found (w : World) (r : Request) (body : Bytes) (patch : User)
    (hm : r.method = "PUT") (hb : r.body = .ok body)
    (hd : jsonUnmarshalUser body = (patch, none))
    (habsent : ∀ x ∈ w.userDB.records, x.Email ≠ patch.Email) :
    (UpdateUserHandler w r).2.status = 404 ∧
    (UpdateUserHandler w r).2.contentType = "application/json" ∧
    (UpdateUserHandler w r).2.body =
      .json (.obj [("message", .str "User not found. Only authorized users can be updated."),
        ("status", .str "error")]) ∧
    (UpdateUserHandler w r).1.userDB = w.userDB ∧
    (UpdateUserHandler w r).1.disk.writeLog = w.disk.writeLog ∧
    (UpdateUserHandler w r).1.disk.file = w.disk.file ∧
    (UpdateUserHandler w r).1 = w := by
  rw [UpdateUserHandler_decoded w r body patch hm hb hd,
    updateUsers_absent patch w.userDB habsent]
  simp [jsonResponse]

/-- C3 on `sampleWorld` with an email that is not stored. -/
theorem UpdateUserHandler_not_found_witness :
    (UpdateUserHandler sampleWorld
      (sampleRequest "PUT" [("email", .str "missing@x.com"), ("role", .str "admin")])).2.status
      = 404 ∧
    (UpdateUserHandler sampleWorld
      (sampleRequest "PUT" [("email", .str "missing@x.com"), ("role", .str "admin")])).1.userDB
      = sampleDB :=
  have h := UpdateUserHandler_not_found sampleWorld
    (sampleRequest "PUT" [("email", .str "missing@x.com"), ("role", .str "admin")]) _
    ⟨"missing@x.com", "", "", "", "admin"⟩ rfl rfl (by decide) (by decide)
  ⟨h.1, h.2.2.2.1⟩

/-- C2: for a PUT request whose body decodes to a patch whose email some stored record
has, each of name, surname and role that is the empty string in the patch has, on the
first record with that email, the value it had before the handler ran (whether or not
the save succeeds). -/
theorem UpdateUserHandler_empty_field_kept (w : World) (r : Request) (body : Bytes)
    (patch : User) (hm : r.method = "PUT") (hb : r.body = .ok body)
    (hd : jsonUnmarshalUser body = (patch, none))
    (hpresent : ∃ x ∈ w.userDB.records, x.Email = patch.Email) :
    ∃ pre u post u', w.userDB.records = pre ++ u :: post ∧
      (∀ x ∈ pre, x.Email ≠ patch.Email) ∧ u.Email = patch.Email ∧
      (UpdateUserHandler w r).1.userDB.records = pre ++ u' :: post ∧
      (patch.Name = "" → u'.Name = u.Name) ∧
      (patch.Surname = "" → u'.Surname = u.Surname) ∧
      (patch.Role = "" → u'.Role = u.Role) := by
  obtain ⟨pre, u, post, hrec, hpre, hu⟩ := exists_first_match patch.Email _ hpresent
  refine ⟨pre, u, post, applyPatch patch u, hrec, hpre, hu, ?_, ?_, ?_, ?_⟩
  · rw [UpdateUserHandler_userDB_matched w r body patch hm hb hd pre post u hrec hpre hu]
    rfl
  · intro h; simp [applyPatch_Name, h]
  · intro h; simp [applyPatch_Surname, h]
  · intro h; simp [applyPatch_Role, h]

/-- C2 on `sampleWorld`: a patch for `b@x.com` that sets only the role leaves the name
`Bob` and the surname `Stone` of the first such record in place. -/
theorem UpdateUserHandler_empty_field_kept_witness :
    ∃ pre u post u', sampleWorld.userDB.records = pre ++ u :: post ∧
      (∀ x ∈ pre, x.Email ≠ "b@x.com") ∧ u.Email = "b@x.com" ∧
      (UpdateUserHandler sampleWorld
        (sampleRequest "PUT" [("email", .str "b@x.com"), ("role", .str "admin")])).1.userDB.records
        = pre ++ u' :: post ∧
      u'.Name = u.Name ∧ u'.Surname = u.Surname := by
  obtain ⟨pre, u, post, u', h1, h2, h3, h4, h5, h6, _⟩ :=
    UpdateUserHandler_empty_field_kept sampleWorld
      (sampleRequest "PUT" [("email", .str "b@x.com"), ("role", .str "admin")]) _
      ⟨"b@x.com", "", "", "", "admin"⟩ rfl rfl (by decide) (by decide)
  exact ⟨pre, u, post, u', h1, h2, h3, h4, h5 rfl, h6 rfl⟩

/-- C9: for a PUT request whose body decodes to a patch, `UpdateUserHandler` keeps the
number of records and, position by position, every record's email and createdAt; a
record whose email differs from the patch email, or that comes after another record
with the patch email, is left exactly as it was. So at most the name, surname and role
of the first record with the patch email change, whatever createdAt the patch carries. -/
theorem UpdateUserHandler_frame (w : World) (r : Request) (body : Bytes) (patch : User)
    (hm : r.method = "PUT") (hb : r.body = .ok body)
    (hd : jsonUnmarshalUser body = (patch, none)) :
    (UpdateUserHandler w r).1.userDB.records.length = w.userDB.records.length ∧
    ∀ (i : Nat) (a : User), w.userDB.records[i]? = some a →
      ∃ b : User, (UpdateUserHandler w r).1.userDB.records[i]? = some b ∧
        b.Email = a.Email ∧ b.CreatedAt = a.CreatedAt ∧
        ((a.Email ≠ patch.Email ∨
            ∃ (j : Nat) (c : User), j < i ∧ w.userDB.records[j]? = some c ∧
              c.Email = patch.Email) →
          b = a) := by
  by_cases hpresent : ∃ x ∈ w.userDB.records, x.Email = patch.Email
  · obtain ⟨pre, u, post, hrec, hpre, hu⟩ := exists_first_match patch.Email _ hpresent
    have hdb := UpdateUserHandler_userDB_matched w r body patch hm hb hd pre post u hrec hpre hu
    have hnew : (UpdateUserHandler w r).1.userDB.records = pre ++ applyPatch patch u :: post := by
      rw [hdb]; rfl
    rw [hnew, hrec]
    refine ⟨by simp, ?_⟩
    intro i a hia
    rcases Nat.lt_trichotomy i pre.length with hlt | heq | hgt
    · rw [List.getElem?_append_left hlt] at hia
      exact ⟨a, by rw [List.getElem?_append_left hlt]; exact hia, rfl, rfl, fun _ => rfl⟩
    · subst heq
      rw [List.getElem?_append_right (Nat.le_refl _)] at hia
      simp only [Nat.sub_self, List.getElem?_cons_zero, Option.some.injEq] at hia
      subst hia
      refine ⟨applyPatch patch u, ?_, applyPatch_Email patch u, applyPatch_CreatedAt patch u, ?_⟩
      · rw [List.getElem?_append_right (Nat.le_refl _)]; simp
      · rintro (hne | ⟨j, c, hj, hjc, hce⟩)
        · exact absurd hu hne
        · rw [List.getElem?_append_left hj] at hjc
          exact absurd hce (hpre c (List.getElem?_mem hjc))
    · have hle : pre.length ≤ i := Nat.le_of_lt hgt
      rw [List.getElem?_append_right hle] at hia
      obtain ⟨k, hk⟩ : ∃ k, i - pre.length = k + 1 := ⟨i - pre.length - 1, by omega⟩
      rw [hk, List.getElem?_cons_succ] at hia
      refine ⟨a, ?_, rfl, rfl, fun _ => rfl⟩
      rw [List.getElem?_append_right hle, hk, List.getElem?_cons_succ]
      exact hia
  · have habsent : ∀ x ∈ w.userDB.records, x.Email ≠ patch.Email := by
      intro x hx hxe
      exact hpresent ⟨x, hx, hxe⟩
    rw [UpdateUserHandler_userDB_absent w r body patch hm hb hd habsent]
    exact ⟨rfl, fun i a hia => ⟨a, hia, rfl, rfl, fun _ => rfl⟩⟩

/-- C9 on `sampleWorld`: a patch for `b@x.com` carrying a createdAt leaves three records,
an untouched later record with the same email, and the first match with its own email
and createdAt. -/
theorem UpdateUserHandler_frame_witness :
    (UpdateUserHandler sampleWorld (sampleRequest "PUT"
        [("email", .str "b@x.com"), ("name", .str "Bo"), ("createdAt", .str "1999")])
      ).1.userDB.records.length = 3 ∧
    ∃ b, (UpdateUserHandler sampleWorld (sampleRequest "PUT"
        [("email", .str "b@x.com"), ("name", .str "Bo"), ("createdAt", .str "1999")])
      ).1.userDB.records[2]? = some b ∧ b = sampleBobAgain := by
  have h := UpdateUserHandler_frame sampleWorld (sampleRequest "PUT"
      [("email", .str "b@x.com"), ("name", .str "Bo"), ("createdAt", .str "1999")]) _
    ⟨"b@x.com", "Bo", "", "1999", ""⟩ rfl rfl (by decide)
  refine ⟨h.1, ?_⟩
  obtain ⟨b, hb, _, _, hsame⟩ := h.2 2 sampleBobAgain rfl
  exact ⟨b, hb, hsame (Or.inr ⟨1, sampleBob, by decide, rfl, rfl⟩)⟩

/-- C1: for a PUT request whose body decodes to a patch whose email some stored record
has, run on a disk that accepts the write: the first record with that email keeps its
place and email, and each of name, surname and role that is non-empty in the patch
equals the patch value on it; the response is 200 with the JSON object
`{status:"success"}`; exactly one write was made and the file now holds the marshalled
updated `userDB`; and a process later started on a readable disk with that file loads,
without error, a collection with the patched record in the same place. -/
theorem UpdateUserHandler_overwrites_and_persists (w : World) (r : Request) (body : Bytes)
    (patch : User) (hm : r.method = "PUT") (hb : r.body = .ok body)
    (hd : jsonUnmarshalUser body = (patch, none))
    (hpresent : ∃ x ∈ w.userDB.records, x.Email = patch.Email)
    (hsave : w.disk.writeFault = none) :
    ∃ pre u post u', w.userDB.records = pre ++ u :: post ∧
      (∀ x ∈ pre, x.Email ≠ patch.Email) ∧ u.Email = patch.Email ∧
      (UpdateUserHandler w r).1.userDB.records = pre ++ u' :: post ∧
      u'.Email = patch.Email ∧
      (patch.Name ≠ "" → u'.Name = patch.Name) ∧
      (patch.Surname ≠ "" → u'.Surname = patch.Surname) ∧
      (patch.Role ≠ "" → u'.Role = patch.Role) ∧
      (UpdateUserHandler w r).2.status = 200 ∧
      (UpdateUserHandler w r).2.contentType = "application/json" ∧
      (UpdateUserHandler w r).2.body = .json (.obj [("status", .str "success")]) ∧
      (UpdateUserHandler w r).1.disk.file =
        some (.doc (marshalDB (UpdateUserHandler w r).1.userDB)) ∧
      (UpdateUserHandler w r).1.disk.writeLog =
        w.disk.writeLog ++ [.doc (marshalDB (UpdateUserHandler w r).1.userDB)] ∧
      (∀ d : Disk, d.file = (UpdateUserHandler w r).1.disk.file → d.readFault = none →
        (LoadDatabase d).2 = none ∧
        (LoadDatabase d).1.userDB = (UpdateUserHandler w r).1.userDB ∧
        (LoadDatabase d).1.userDB.records = pre ++ u' :: post) := by
  obtain ⟨pre, u, post, hrec, hpre, hu⟩ := exists_first_match patch.Email _ hpresent
  have hres := UpdateUserHandler_matched_saved w r body patch hm hb hd pre post u hrec hpre hu
    hsave
  refine ⟨pre, u, post, applyPatch patch u, hrec, hpre, hu, ?_, ?_, ?_, ?_, ?_, ?_, ?_, ?_,
    ?_, ?_, ?_⟩
  · rw [hres]; rfl
  · rw [applyPatch_Email, hu]
  · intro h; simp [applyPatch_Name, h]
  · intro h; simp [applyPatch_Surname, h]
  · intro h; simp [applyPatch_Role, h]
  · rw [hres]; rfl
  · rw [hres]; rfl
  · rw [hres]; rfl
  · rw [hres]
  · rw [hres]
  · intro d hfile hread
    rw [hres] at hfile ⊢
    rw [LoadDatabase_of_saved d _ hfile hread]
    exact ⟨rfl, rfl, rfl⟩

/-- C1 on `sampleWorld`: setting the role of `a@x.com` to `admin` answers 200, and a
process restarted on the resulting disk finds the record with role `admin`. -/
theorem UpdateUserHandler_overwrites_and_persists_witness :
    ∃ pre u post u', sampleWorld.userDB.records = pre ++ u :: post ∧
      (∀ x ∈ pre, x.Email ≠ "a@x.com") ∧ u.Email = "a@x.com" ∧
      (UpdateUserHandler sampleWorld
        (sampleRequest "PUT" [("email", .str "a@x.com"), ("role", .str "admin")])).2.status
        = 200 ∧
      (LoadDatabase (UpdateUserHandler sampleWorld
        (sampleRequest "PUT" [("email", .str "a@x.com"), ("role", .str "admin")])).1.disk
        ).1.userDB.records = pre ++ u' :: post ∧
      u'.Role = "admin" := by
  obtain ⟨pre, u, post, u', h1, h2, h3, _, _, _, _, hrole, hst, _, _, _, _, hload⟩ :=
    UpdateUserHandler_overwrites_and_persists sampleWorld
      (sampleRequest "PUT" [("email", .str "a@x.com"), ("role", .str "admin")]) _
      ⟨"a@x.com", "", "", "", "admin"⟩ rfl rfl (by decide) (by decide) rfl
  exact ⟨pre, u, post, u', h1, h2, h3, hst, (hload _ rfl rfl).2.2, hrole (by decide)⟩

/-- C10, the claim as stated fails: on `sampleWorldDiskFull` the update of `a@x.com`
answers 500 because the save fails, `userDB` already holds role `admin`, and yet the
backing file is not what it was: it held the saved collection before the call and is
empty after it, so that a restarted process can no longer load it. -/
theorem UpdateUserHandler_save_failure_file_not_kept :
    (UpdateUserHandler sampleWorldDiskFull
      (sampleRequest "PUT" [("email", .str "a@x.com"), ("role", .str "admin")])).2.status
      = 500 ∧
    FindUserByEmail (UpdateUserHandler sampleWorldDiskFull
        (sampleRequest "PUT" [("email", .str "a@x.com"), ("role", .str "admin")])).1 "a@x.com"
      = (⟨"a@x.com", "", "", "2024-01-01", "admin"⟩, true) ∧
    sampleWorldDiskFull.disk.file = some (.doc (marshalDB sampleDB)) ∧
    (UpdateUserHandler sampleWorldDiskFull
      (sampleRequest "PUT" [("email", .str "a@x.com"), ("role", .str "admin")])).1.disk.file
      = some (.malformed "") ∧
    (UpdateUserHandler sampleWorldDiskFull
      (sampleRequest "PUT" [("email", .str "a@x.com"), ("role", .str "admin")])).1.disk.file
      ≠ sampleWorldDiskFull.disk.file ∧
    (LoadDatabase (UpdateUserHandler sampleWorldDiskFull
        (sampleRequest "PUT" [("email", .str "a@x.com"), ("role", .str "admin")])).1.disk
      ).2 = some .badJSON := by
  refine ⟨by decide, by decide, rfl, rfl, ?_, by decide⟩
  show some (Bytes.malformed "") ≠ some (Bytes.doc (marshalDB sampleDB))
  intro h
  cases h

/-- C10, amended: for a PUT request whose body decodes to a patch whose email some stored
record has, run on a disk whose write fails: the response is 500 with the plain-text
message and `userDB` is not rolled back. The first record with that email carries every
non-empty patch field (and its old value where the patch field is empty),
`FindUserByEmail` for that email returns this patched record, and `AuthenticateHandler`
for that email answers with it. One write was attempted, with the marshalled patched
`userDB`. The file is what the failed write left: untouched when the open failed,
otherwise the truncated file with whatever part of the data reached it. -/
theorem UpdateUserHandler_save_failure_keeps_patch (w : World) (r : Request) (body : Bytes)
    (patch : User) (hm : r.method = "PUT") (hb : r.body = .ok body)
    (hd : jsonUnmarshalUser body = (patch, none))
    (hpresent : ∃ x ∈ w.userDB.records, x.Email = patch.Email)
    (fault : WriteFault) (hsave : w.disk.writeFault = some fault) :
    ∃ pre u post u', w.userDB.records = pre ++ u :: post ∧
      (∀ x ∈ pre, x.Email ≠ patch.Email) ∧ u.Email = patch.Email ∧
      (UpdateUserHandler w r).2 = httpError "Error saving database" 500 ∧
      (UpdateUserHandler w r).2.status = 500 ∧
      (UpdateUserHandler w r).1.userDB.records = pre ++ u' :: post ∧
      u'.Email = u.Email ∧ u'.CreatedAt = u.CreatedAt ∧
      u'.Name = (if patch.Name = "" then u.Name else patch.Name) ∧
      u'.Surname = (if patch.Surname = "" then u.Surname else patch.Surname) ∧
      u'.Role = (if patch.Role = "" then u.Role else patch.Role) ∧
      FindUserByEmail (UpdateUserHandler w r).1 patch.Email = (u', true) ∧
      (∀ (q : Request) (qbody : Bytes) (quser : User), q.method = "POST" →
        q.body = .ok qbody → jsonUnmarshalUser qbody = (quser, none) →
        quser.Email = patch.Email →
        (AuthenticateHandler (UpdateUserHandler w r).1 q).2.body =
          .json (.obj [("exists", .bool true), ("status", .str "success"),
            ("user", marshalUser u')])) ∧
      (UpdateUserHandler w r).1.disk.writeLog =
        w.disk.writeLog ++ [.doc (marshalDB (UpdateUserHandler w r).1.userDB)] ∧
      (∀ err, fault = .refused err → (UpdateUserHandler w r).1.disk.file = w.disk.file) ∧
      (∀ err left, fault = .torn err left →
        (UpdateUserHandler w r).1.disk.file = some left) := by
  obtain ⟨pre, u, post, hrec, hpre, hu⟩ := exists_first_match patch.Email _ hpresent
  have hres := UpdateUserHandler_matched_unsaved w r body patch hm hb hd pre post u hrec hpre hu
    fault hsave
  have hfind : FindUserByEmail (UpdateUserHandler w r).1 patch.Email
      = (applyPatch patch u, true) := by
    rw [hres]
    unfold FindUserByEmail
    show findLoop patch.Email (pre ++ applyPatch patch u :: post) = _
    rw [findLoop_skip patch.Email pre _ hpre]
    simp [findLoop, applyPatch_Email, hu]
  refine ⟨pre, u, post, applyPatch patch u, hrec, hpre, hu, ?_, ?_, ?_,
    applyPatch_Email patch u, applyPatch_CreatedAt patch u, applyPatch_Name patch u,
    applyPatch_Surname patch u, applyPatch_Role patch u, hfind, ?_, ?_, ?_, ?_⟩
  · rw [hres]
  · rw [hres]; rfl
  · rw [hres]; rfl
  · intro q qbody quser hqm hqb hqd hqe
    rw [AuthenticateHandler_decoded _ q qbody quser hqm hqb hqd, hqe, hfind]
    simp [jsonResponse]
  · rw [hres]
  · intro err hf
    rw [hres, hf]; rfl
  · intro err left hf
    rw [hres, hf]; rfl

/-- C10 amended, on `sampleWorldReadOnly`: the update of `a@x.com` answers 500, the open
was refused so the file still holds the old collection, and the lookup already returns
role `admin`. -/
theorem UpdateUserHandler_save_failure_keeps_patch_witness :
    (UpdateUserHandler sampleWorldReadOnly
      (sampleRequest "PUT" [("email", .str "a@x.com"), ("role", .str "admin")])).2.status
      = 500 ∧
    (UpdateUserHandler sampleWorldReadOnly
      (sampleRequest "PUT" [("email", .str "a@x.com"), ("role", .str "admin")])).1.disk.file
      = some (.doc (marshalDB sampleDB)) ∧
    ∃ u', FindUserByEmail (UpdateUserHandler sampleWorldReadOnly
        (sampleRequest "PUT" [("email", .str "a@x.com"), ("role", .str "admin")])).1 "a@x.com"
        = (u', true) ∧ u'.Role = "admin" := by
  obtain ⟨pre, u, post, u', _, _, _, _, hst, _, _, _, _, _, hrole, hfind, _, _, hfile, _⟩ :=
    UpdateUserHandler_save_failure_keeps_patch sampleWorldReadOnly
      (sampleRequest "PUT" [("email", .str "a@x.com"), ("role", .str "admin")]) _
      ⟨"a@x.com", "", "", "", "admin"⟩ rfl rfl (by decide) (by decide)
      (.refused (.io "read-only file system")) rfl
  exact ⟨hst, hfile _ rfl, u', hfind, by simpa using hrole⟩

/-- C7: when the file does not exist, `LoadDatabase` is the `SaveDatabase` of the empty
collection: `userDB` becomes a non-nil slice of zero users, one write is made whose data
is the marshalled empty `users` array, and the result returned is that save's result;
if the write succeeds the error is nil and the file holds `{"users": []}`, if it fails
that error is returned. When `os.ReadFile` fails for another reason, `LoadDatabase`
returns that error and changes neither `userDB` nor the disk (no write is made). -/
theorem LoadDatabase_missing_or_unreadable (d : Disk) :
    (d.file = none → d.readFault = none →
      LoadDatabase d = SaveDatabase { userDB := ⟨some []⟩, disk := d } ∧
      (LoadDatabase d).1.userDB = ⟨some []⟩ ∧
      (LoadDatabase d).1.userDB.records = [] ∧
      (LoadDatabase d).1.disk.writeLog = d.writeLog ++ [.doc (.obj [("users", .arr [])])] ∧
      (d.writeFault = none →
        (LoadDatabase d).2 = none ∧
        (LoadDatabase d).1.disk.file = some (.doc (.obj [("users", .arr [])]))) ∧
      (∀ fault : WriteFault, d.writeFault = some fault →
        (LoadDatabase d).2 = some fault.err)) ∧
    (∀ msg, d.readFault = some msg →
      LoadDatabase d = ({ userDB := UserDatabase.zero, disk := d }, some (.io msg)) ∧
      (LoadDatabase d).1.disk.writeLog = d.writeLog ∧
      (LoadDatabase d).1.disk.file = d.file) := by
  constructor
  · intro hfile hread
    have hL : LoadDatabase d = SaveDatabase { userDB := ⟨some []⟩, disk := d } := by
      simp [LoadDatabase, osReadFile, hfile, hread, osIsNotExist]
    refine ⟨hL, ?_, ?_, ?_, ?_, ?_⟩
    · rw [hL, SaveDatabase_userDB]
    · rw [hL, SaveDatabase_userDB]; rfl
    · rw [hL]
      cases hw : d.writeFault with
      | none => rw [SaveDatabase_ok _ hw]; simp [marshalDB]
      | some fault => rw [SaveDatabase_fail _ fault hw]; simp [marshalDB]
    · intro hw
      rw [hL, SaveDatabase_ok _ hw]
      simp [marshalDB]
    · intro fault hw
      rw [hL, SaveDatabase_fail _ fault hw]
  · intro msg hread
    rw [LoadDatabase_unreadable d msg hread]
    exact ⟨rfl, rfl, rfl⟩

/-- C7 on `sampleEmptyDisk`: the first load creates the file with an empty `users` array
and returns no error; on a disk whose read is denied the error comes back. -/
theorem LoadDatabase_missing_or_unreadable_witness :
    ((LoadDatabase sampleEmptyDisk).2 = none ∧
      (LoadDatabase sampleEmptyDisk).1.disk.file = some (.doc (.obj [("users", .arr [])]))) ∧
    (LoadDatabase { sampleDisk with readFault := some "permission denied" }).2
      = some (.io "permission denied") :=
  ⟨((LoadDatabase_missing_or_unreadable sampleEmptyDisk).1 rfl rfl).2.2.2.2.1 rfl,
   congrArg Prod.snd
    ((LoadDatabase_missing_or_unreadable
      { sampleDisk with readFault := some "permission denied" }).2 "permission denied" rfl).1⟩

/-- C6: take a disk whose file exists and which `LoadDatabase` loads without error, and
which accepts writes. `SaveDatabase` after that `LoadDatabase` succeeds and writes a file
that decodes, without error, to the very collection the original file decoded to (same
records, same order, same five fields). A process restarted on the written file loads
that collection again, and saving again leaves the file as it is; and if the original
file was itself the marshalled form of some collection, the written file is that
original file. -/
theorem LoadDatabase_SaveDatabase_roundtrip (d : Disk) (data : Bytes)
    (hfile : d.file = some data) (hvalid : (LoadDatabase d).2 = none)
    (hwrite : d.writeFault = none) :
    (LoadDatabase d).1.userDB = (jsonUnmarshalDB data).1 ∧
    (SaveDatabase (LoadDatabase d).1).2 = none ∧
    (∃ data', (SaveDatabase (LoadDatabase d).1).1.disk.file = some data' ∧
      jsonUnmarshalDB data' = ((jsonUnmarshalDB data).1, none)) ∧
    LoadDatabase (SaveDatabase (LoadDatabase d).1).1.disk =
      ({ userDB := (LoadDatabase d).1.userDB, disk := (SaveDatabase (LoadDatabase d).1).1.disk },
        none) ∧
    (SaveDatabase (LoadDatabase (SaveDatabase (LoadDatabase d).1).1.disk).1).1.disk.file =
      (SaveDatabase (LoadDatabase d).1).1.disk.file ∧
    (∀ db : UserDatabase, data = .doc (marshalDB db) →
      (SaveDatabase (LoadDatabase d).1).1.disk.file = some data) := by
  have hread : d.readFault = none := by
    cases hr : d.readFault with
    | none => rfl
    | some msg => rw [LoadDatabase_unreadable d msg hr] at hvalid; simp at hvalid
  have hL := LoadDatabase_present d data hfile hread
  have hS := SaveDatabase_ok { userDB := (jsonUnmarshalDB data).1, disk := d } hwrite
  rw [hL] at hvalid ⊢
  simp only at hvalid ⊢
  rw [hS]
  simp only
  have hre : LoadDatabase
      { d with file := some (.doc (marshalDB (jsonUnmarshalDB data).1)),
               writeLog := d.writeLog ++ [.doc (marshalDB (jsonUnmarshalDB data).1)] } =
      ({ userDB := (jsonUnmarshalDB data).1,
         disk := { d with file := some (.doc (marshalDB (jsonUnmarshalDB data).1)),
                          writeLog := d.writeLog ++ [.doc (marshalDB (jsonUnmarshalDB data).1)] } },
        none) :=
    LoadDatabase_of_saved _ _ rfl hread
  refine ⟨trivial, trivial, ⟨_, rfl, jsonUnmarshalDB_marshal _⟩, hre, ?_, ?_⟩
  · rw [hre, SaveDatabase_ok _ hwrite]
  · intro db hdb
    rw [hdb, jsonUnmarshalDB_marshal]

/-- C6 on a hand-written file with unknown members and differently-cased keys: load then
save succeeds and the saved file decodes to the same one-record collection. -/
theorem LoadDatabase_SaveDatabase_roundtrip_witness :
    (LoadDatabase { sampleEmptyDisk with file := some sampleHandWritten }).1.userDB
      = ⟨some [⟨"a@x.com", "", "", "", "user"⟩]⟩ ∧
    ∃ data', (SaveDatabase (LoadDatabase { sampleEmptyDisk with file := some sampleHandWritten }
        ).1).1.disk.file = some data' ∧
      jsonUnmarshalDB data' = (⟨some [⟨"a@x.com", "", "", "", "user"⟩]⟩, none) :=
  have h := LoadDatabase_SaveDatabase_roundtrip
    { sampleEmptyDisk with file := some sampleHandWritten } sampleHandWritten rfl (by decide) rfl
  ⟨h.1, h.2.2.1⟩

/-- C8: take two PUT requests whose bodies decode to patches `p` and `q` with different
emails, both stored, on a disk that accepts writes. Run one after the other in either
order: all four responses are 200; the final `userDB` and the final file are the same
for both orders; the final file is the marshalled final `userDB` and a restarted process
loads it back; and neither update is lost: in the final collection the first record
with the email of `p` is the one the update `p` alone produces from the start state and
carries every non-empty field of `p`, and likewise for `q`. -/
theorem UpdateUserHandler_disjoint_updates_commute (w : World) (rp rq : Request)
    (bp bq : Bytes) (p q : User)
    (hmp : rp.method = "PUT") (hbp : rp.body = .ok bp)
    (hdp : jsonUnmarshalUser bp = (p, none))
    (hmq : rq.method = "PUT") (hbq : rq.body = .ok bq)
    (hdq : jsonUnmarshalUser bq = (q, none))
    (hne : p.Email ≠ q.Email)
    (hp : ∃ x ∈ w.userDB.records, x.Email = p.Email)
    (hq : ∃ x ∈ w.userDB.records, x.Email = q.Email)
    (hsave : w.disk.writeFault = none) :
    (UpdateUserHandler w rp).2.status = 200 ∧
    (UpdateUserHandler (UpdateUserHandler w rp).1 rq).2.status = 200 ∧
    (UpdateUserHandler w rq).2.status = 200 ∧
    (UpdateUserHandler (UpdateUserHandler w rq).1 rp).2.status = 200 ∧
    (UpdateUserHandler (UpdateUserHandler w rp).1 rq).1.userDB =
      (UpdateUserHandler (UpdateUserHandler w rq).1 rp).1.userDB ∧
    (UpdateUserHandler (UpdateUserHandler w rp).1 rq).1.disk.file =
      (UpdateUserHandler (UpdateUserHandler w rq).1 rp).1.disk.file ∧
    (UpdateUserHandler (UpdateUserHandler w rp).1 rq).1.disk.file =
      some (.doc (marshalDB (UpdateUserHandler (UpdateUserHandler w rp).1 rq).1.userDB)) ∧
    (∀ d : Disk, d.file = (UpdateUserHandler (UpdateUserHandler w rp).1 rq).1.disk.file →
      d.readFault = none →
      (LoadDatabase d).2 = none ∧
      (LoadDatabase d).1.userDB = (UpdateUserHandler (UpdateUserHandler w rp).1 rq).1.userDB) ∧
    (∃ up uq : User,
      (UpdateUserHandler (UpdateUserHandler w rp).1 rq).1.userDB.records.find?
          (fun x => x.Email = p.Email) = some up ∧
      (UpdateUserHandler w rp).1.userDB.records.find? (fun x => x.Email = p.Email) = some up ∧
      (p.Name ≠ "" → up.Name = p.Name) ∧ (p.Surname ≠ "" → up.Surname = p.Surname) ∧
      (p.Role ≠ "" → up.Role = p.Role) ∧
      (UpdateUserHandler (UpdateUserHandler w rp).1 rq).1.userDB.records.find?
          (fun x => x.Email = q.Email) = some uq ∧
      (UpdateUserHandler w rq).1.userDB.records.find? (fun x => x.Email = q.Email) = some uq ∧
      (q.Name ≠ "" → uq.Name = q.Name) ∧ (q.Surname ≠ "" → uq.Surname = q.Surname) ∧
      (q.Role ≠ "" → uq.Role = q.Role)) := by
  obtain ⟨l, hl⟩ : ∃ l, w.userDB.Users = some l := by
    obtain ⟨pre, u, post, hrec, _, _⟩ := exists_first_match p.Email _ hp
    exact ⟨_, users_of_records_cons hrec⟩
  have hrec : w.userDB.records = l := records_of_users hl
  rw [hrec] at hp hq
  have h1 := UpdateUserHandler_present_saved w rp bp p l hmp hbp hdp hl hp hsave
  have h2 := UpdateUserHandler_present_saved w rq bq q l hmq hbq hdq hl hq hsave
  have hq1 := updateLoop_present_after p q l hq
  have hp2 := updateLoop_present_after q p l hp
  have h12 := UpdateUserHandler_present_saved (UpdateUserHandler w rp).1 rq bq q
    (updateLoop p l).1 hmq hbq hdq (by rw [h1]) hq1 (by rw [h1]; exact hsave)
  have h21 := UpdateUserHandler_present_saved (UpdateUserHandler w rq).1 rp bp p
    (updateLoop q l).1 hmp hbp hdp (by rw [h2]) hp2 (by rw [h2]; exact hsave)
  have hcomm := updateLoop_comm p q hne l
  obtain ⟨prep, u0p, postp, hdecp, hprep, hup⟩ := exists_first_match p.Email l hp
  obtain ⟨preq, u0q, postq, hdecq, hpreq, huq⟩ := exists_first_match q.Email l hq
  have hfp : (updateLoop p l).1.find? (fun x => x.Email = p.Email)
      = some (applyPatch p u0p) := by
    rw [hdecp]; exact find_updateLoop_self p prep postp u0p hprep hup
  have hfq : (updateLoop q l).1.find? (fun x => x.Email = q.Email)
      = some (applyPatch q u0q) := by
    rw [hdecq]; exact find_updateLoop_self q preq postq u0q hpreq huq
  refine ⟨by rw [h1]; rfl, by rw [h12]; rfl, by rw [h2]; rfl, by rw [h21]; rfl, ?_, ?_, ?_, ?_,
    ?_⟩
  · rw [h12, h21]; simp only [hcomm]
  · rw [h12, h21]; simp only [hcomm]
  · rw [h12]
  · intro d hfile hread
    rw [h12] at hfile ⊢
    rw [LoadDatabase_of_saved d _ hfile hread]
    exact ⟨rfl, rfl⟩
  · refine ⟨applyPatch p u0p, applyPatch q u0q, ?_, ?_, ?_, ?_, ?_, ?_, ?_, ?_, ?_, ?_⟩
    · rw [h12]
      show ((updateLoop q (updateLoop p l).1).1).find? _ = _
      rw [find_updateLoop_other q p.Email hne, hfp]
    · rw [h1]; exact hfp
    · intro h; simp [applyPatch_Name, h]
    · intro h; simp [applyPatch_Surname, h]
    · intro h; simp [applyPatch_Role, h]
    · rw [h12]
      show ((updateLoop q (updateLoop p l).1).1).find? _ = _
      rw [hcomm, find_updateLoop_other p q.Email (fun h => hne h.symm), hfq]
    · rw [h2]; exact hfq
    · intro h; simp [applyPatch_Name, h]
    · intro h; simp [applyPatch_Surname, h]
    · intro h; simp [applyPatch_Role, h]

/-- C8 on `sampleWorld`: renaming `a@x.com` and giving `b@x.com` a role, in either order,
answers 200 twice and ends in the same collection and the same file. -/
theorem UpdateUserHandler_disjoint_updates_commute_witness :
    (UpdateUserHandler (UpdateUserHandler sampleWorld
        (sampleRequest "PUT" [("email", .str "a@x.com"), ("name", .str "Ann")])).1
        (sampleRequest "PUT" [("email", .str "b@x.com"), ("role", .str "admin")])).2.status
      = 200 ∧
    (UpdateUserHandler (UpdateUserHandler sampleWorld
        (sampleRequest "PUT" [("email", .str "a@x.com"), ("name", .str "Ann")])).1
        (sampleRequest "PUT" [("email", .str "b@x.com"), ("role", .str "admin")])).1.userDB
      = (UpdateUserHandler (UpdateUserHandler sampleWorld
        (sampleRequest "PUT" [("email", .str "b@x.com"), ("role", .str "admin")])).1
        (sampleRequest "PUT" [("email", .str "a@x.com"), ("name", .str "Ann")])).1.userDB :=
  have h := UpdateUserHandler_disjoint_updates_commute sampleWorld
    (sampleRequest "PUT" [("email", .str "a@x.com"), ("name", .str "Ann")])
    (sampleRequest "PUT" [("email", .str "b@x.com"), ("role", .str "admin")]) _ _
    ⟨"a@x.com", "Ann", "", "", ""⟩ ⟨"b@x.com", "", "", "", "admin"⟩
    rfl rfl (by decide) rfl rfl (by decide) (by decide) (by decide) (by decide) rfl
  ⟨h.2.1, h.2.2.2.2.1⟩

end UESS
